import Mathlib

/-!
# The assessment-recommender page script (`web/app.js`)

A shallow embedding of the page script and the properties of its CSV export,
its Recommend handler and its result renderer.

Modelling conventions.

* A JavaScript string is the list of its characters (`JsString`).
* A value obtained from `JSON.parse` is a `Json`; `undefined` is `none` in
  `Option Json`.  A number is kept as the text `Number::toString` gives for it
  (the page only ever prints numbers or tests them against zero).
* An exception is a `JsError` (name and message); code that may throw returns
  `Except JsError _`.
* The `async` click handler of the Recommend button is split at its first
  `await`: `recommendClick` runs up to the `fetch`, `recommendSettle` runs from
  the arrival of the response to the end of the handler.
* A table row is the markup assigned to `tr.innerHTML`; how the browser parses
  that markup is outside the model.
* `k` is an integer-valued double: `parseInt` rounds the digits it reads to the
  nearest double (`roundToDouble`), and `JSON.stringify` prints the shortest
  numeral that rounds back to it (`numberDigits`).
* Responses of overlapping Recommend calls may arrive in any order: the page
  keeps the queries of the calls under way (`Page.inFlight`).
* `parseCsv` is the reference reader against which the export is read back; it
  is not part of the page.
-/

namespace ShlWebApp

/-! ## Strings -/

/-- A JavaScript string. -/
abbrev JsString := List Char

/-- The double quote character U+0022. -/
def dquote : Char := Char.ofNat 34

/-- The line feed character U+000A. -/
def lf : Char := Char.ofNat 10

/-- The carriage return character U+000D. -/
def cr : Char := Char.ofNat 13

/-- The byte-order-mark character U+FEFF. -/
def bom : Char := Char.ofNat 65279

/-- The characters `String.prototype.trim` strips: ECMAScript `WhiteSpace`
(TAB, VT, FF, SP, NBSP, ZWNBSP and the Unicode space separators) and
`LineTerminator` (LF, CR, LS, PS). -/
def isWhiteSpace (c : Char) : Bool :=
  [9, 10, 11, 12, 13, 32, 160, 5760, 8232, 8233, 8239, 8287, 12288, 65279].contains c.toNat
    || (8192 ≤ c.toNat && c.toNat ≤ 8202)

/-- `String.prototype.trimStart`. -/
def trimStart (s : JsString) : JsString := s.dropWhile isWhiteSpace

/-- `String.prototype.trimEnd`. -/
def trimEnd (s : JsString) : JsString := (s.reverse.dropWhile isWhiteSpace).reverse

/-- `String.prototype.trim`. -/
def trim (s : JsString) : JsString := trimEnd (trimStart s)

/-- `s.replace(/"/g, '""')`: every double quote becomes two. -/
def replaceQuotes : JsString → JsString
  | [] => []
  | c :: cs => if c = dquote then dquote :: dquote :: replaceQuotes cs else c :: replaceQuotes cs

/-- The character class `[\r\n]`. -/
def isCrLf (c : Char) : Bool := c = cr || c = lf

/-- Scanner for `replace(/[\r\n]+/g, ' ')`; `inRun` tells that the previous
character belonged to the run being replaced, whose space is already out. -/
def replaceCrLfRunsAux : Bool → JsString → JsString
  | _, [] => []
  | inRun, c :: cs =>
    if isCrLf c then
      if inRun then replaceCrLfRunsAux true cs else ' ' :: replaceCrLfRunsAux true cs
    else c :: replaceCrLfRunsAux false cs

/-- `s.replace(/[\r\n]+/g, ' ')`: every maximal run of CR/LF characters becomes
one space. -/
def replaceCrLfRuns (s : JsString) : JsString := replaceCrLfRunsAux false s

/-- `s.replace(/\/$/, '')`: one trailing slash is removed. -/
def stripTrailingSlash (s : JsString) : JsString :=
  match s.reverse with
  | '/' :: rest => rest.reverse
  | _ => s

/-! ## Values and exceptions -/

/-- A value produced by `JSON.parse`.  A number carries its `Number::toString`
text; an object carries its properties in order. -/
inductive Json where
  | null
  | bool (b : Bool)
  | num (text : JsString)
  | str (s : JsString)
  | arr (items : List Json)
  | obj (props : List (JsString × Json))

/-- A thrown exception: the `name` and `message` of the error object. -/
structure JsError where
  name : JsString
  message : JsString
deriving DecidableEq

/-- A `TypeError` raised by the engine (message wording as in V8). -/
def typeError (message : String) : JsError := ⟨"TypeError".toList, message.toList⟩

/-- Own-property lookup in the property list of an object. -/
def lookupProp (key : JsString) : List (JsString × Json) → Option Json
  | [] => none
  | (k, v) :: rest => if k = key then some v else lookupProp key rest

/-- The member access `v.key` for a key that no prototype defines: throws on
`null`, reads the own property of an object, is `undefined` otherwise. -/
def getProp (v : Json) (key : String) : Except JsError (Option Json) :=
  match v with
  | .null => .error (typeError ("Cannot read properties of null (reading '" ++ key ++ "')"))
  | .obj props => .ok (lookupProp key.toList props)
  | _ => .ok none

/-- ECMAScript `ToBoolean`. -/
def truthy : Option Json → Bool
  | none => false
  | some .null => false
  | some (.bool b) => b
  | some (.num text) => text != "0".toList
  | some (.str s) => s != []
  | some (.arr _) => true
  | some (.obj _) => true

mutual
/-- ECMAScript `ToString` on a parsed JSON value.  An array is joined with
commas; a plain object gives `[object Object]`, unless an own property shadows
`toString`, which is then not callable and makes the conversion throw. -/
def jsonToString : Json → Except JsError JsString
  | .null => .ok "null".toList
  | .bool b => .ok (if b then "true".toList else "false".toList)
  | .num text => .ok text
  | .str s => .ok s
  | .arr items => joinItems ",".toList items
  | .obj props =>
    match lookupProp "toString".toList props with
    | some _ => .error (typeError "Cannot convert object to primitive value")
    | none => .ok "[object Object]".toList
termination_by structural v => v
/-- `Array.prototype.join(sep)`: the items' texts with `sep` in between; a
`null` item gives the empty string. -/
def joinItems (sep : JsString) : List Json → Except JsError JsString
  | [] => .ok []
  | .null :: rest => joinRest sep rest
  | x :: rest =>
    match jsonToString x with
    | .error e => .error e
    | .ok a =>
      match joinRest sep rest with
      | .error e => .error e
      | .ok b => .ok (a ++ b)
termination_by structural items => items
/-- The items after the first inside `join`, each behind a separator. -/
def joinRest (sep : JsString) : List Json → Except JsError JsString
  | [] => .ok []
  | .null :: rest =>
    match joinRest sep rest with
    | .error e => .error e
    | .ok b => .ok (sep ++ b)
  | x :: rest =>
    match jsonToString x with
    | .error e => .error e
    | .ok a =>
      match joinRest sep rest with
      | .error e => .error e
      | .ok b => .ok (sep ++ a ++ b)
termination_by structural items => items
end

/-- `ToString` on a value that may be `undefined`. -/
def toStr : Option Json → Except JsError JsString
  | none => .ok "undefined".toList
  | some v => jsonToString v

/-- `String(v ?? '')`. -/
def stringOrEmpty : Option Json → Except JsError JsString
  | none => .ok []
  | some .null => .ok []
  | some v => jsonToString v

/-! ## CSV export (`downloadCsv`, `escapeCsv`, `normalize`) -/

/-- Body of `escapeCsv` once `s = String(v ?? '')` is computed. -/
def escapeCsvString (s : JsString) : JsString :=
  if s.contains dquote || s.contains ',' || s.contains lf then
    dquote :: (replaceQuotes s ++ [dquote])
  else s

/-- `escapeCsv(v)`. -/
def escapeCsv (v : Option Json) : Except JsError JsString :=
  match stringOrEmpty v with
  | .error e => .error e
  | .ok s => .ok (escapeCsvString s)

/-- `normalize(text)` for a string `text`. -/
def normalize (text : JsString) : JsString :=
  trim (replaceCrLfRuns (if text.isEmpty then [] else text))

/-- `r.url || ''` inside `downloadCsv`. -/
def urlOrEmpty (r : Json) : Except JsError (Option Json) :=
  match getProp r "url" with
  | .error e => .error e
  | .ok u => .ok (if truthy u then u else some (.str []))

/-- The `forEach` of `downloadCsv`: the rows pushed behind the header, one
`[normalize(query), r.url || '']` per record. -/
def pushRows (query : JsString) : List Json → Except JsError (List (List (Option Json)))
  | [] => .ok []
  | r :: rs =>
    match urlOrEmpty r with
    | .error e => .error e
    | .ok u =>
      match pushRows query rs with
      | .error e => .error e
      | .ok rows => .ok ([some (.str (normalize query)), u] :: rows)

/-- `cols.map(escapeCsv)`. -/
def escapeCols : List (Option Json) → Except JsError (List JsString)
  | [] => .ok []
  | v :: vs =>
    match escapeCsv v with
    | .error e => .error e
    | .ok s =>
      match escapeCols vs with
      | .error e => .error e
      | .ok ss => .ok (s :: ss)

/-- `rows.map(cols => cols.map(escapeCsv).join(','))`. -/
def csvLines : List (List (Option Json)) → Except JsError (List JsString)
  | [] => .ok []
  | cols :: rows =>
    match escapeCols cols with
    | .error e => .error e
    | .ok fields =>
      match csvLines rows with
      | .error e => .error e
      | .ok lines => .ok (",".toList.intercalate fields :: lines)

/-- The text `downloadCsv(query, assessments)` hands to the `Blob` offered as
`predictions.csv`: the byte-order mark, then the lines joined with CRLF. -/
def downloadCsv (query : JsString) (assessments : List Json) : Except JsError JsString :=
  match pushRows query assessments with
  | .error e => .error e
  | .ok dataRows =>
    match csvLines ([some (.str "Query".toList), some (.str "Assessment_url".toList)] :: dataRows) with
    | .error e => .error e
    | .ok lines => .ok (bom :: [cr, lf].intercalate lines)

/-- The CSV body: the text of the file after the byte-order mark. -/
def csvBody (query : JsString) (assessments : List Json) : Except JsError JsString :=
  match downloadCsv query assessments with
  | .error e => .error e
  | .ok text => .ok text.tail

/-! ## Recommendation records -/

/-- A duration as the service sends it: a number or a string. -/
inductive Duration where
  | ofNumber (digits : JsString)
  | ofString (s : JsString)

/-- A Recommendation Record of the data model. -/
structure Record where
  url : Option JsString
  test_type : Option (List JsString)
  duration : Option Duration
  adaptive_support : Bool
  remote_support : Bool
  description : Option JsString

/-- An optional property of a JSON object. -/
def optProp (key : String) (v : Option Json) : List (JsString × Json) :=
  match v with
  | none => []
  | some j => [(key.toList, j)]

/-- The JSON value of a duration. -/
def Duration.toJson : Duration → Json
  | .ofNumber digits => .num digits
  | .ofString s => .str s

/-- The JSON object of a record: absent attributes are left out. -/
def Record.toJson (r : Record) : Json :=
  .obj (optProp "url" (r.url.map Json.str)
    ++ optProp "test_type" (r.test_type.map (fun ts => Json.arr (ts.map Json.str)))
    ++ optProp "duration" (r.duration.map Duration.toJson)
    ++ [("adaptive_support".toList, .bool r.adaptive_support),
        ("remote_support".toList, .bool r.remote_support)]
    ++ optProp "description" (r.description.map Json.str))

/-! ## The request of the Recommend call -/

/-- A number as the Recommend handler can hold it in `k`: the result of
`parseInt` is `NaN`, an infinity or an integer-valued double (the two zeros
are not told apart: both print as `0`). -/
inductive JsNumber where
  | nan
  | posInf
  | negInf
  | int (z : Int)
deriving DecidableEq

/-- The number of binary digits of `m`, counted with `fuel` halvings. -/
def bitLengthAux : Nat → Nat → Nat
  | 0, _ => 0
  | fuel + 1, m => if m = 0 then 0 else bitLengthAux fuel (m / 2) + 1

/-- The number of binary digits of `m`. -/
def bitLength (m : Nat) : Nat := bitLengthAux m m

/-- The double nearest to the natural number `m` (round to nearest, ties to
even, 53 bits of precision), or `none` when that is an infinity, which is
when the rounded value has more than 1024 binary digits. -/
def roundToDouble (m : Nat) : Option Nat :=
  if m < 2 ^ 53 then some m
  else
    let e := bitLength m - 53
    let q := m / 2 ^ e
    let r := m % 2 ^ e
    let half := 2 ^ (e - 1)
    let q' := if half < r || (r = half && q % 2 = 1) then q + 1 else q
    if 1024 < bitLength (q' * 2 ^ e) then none else some (q' * 2 ^ e)

/-- A decimal digit. -/
def isDigit (c : Char) : Bool := 48 ≤ c.toNat && c.toNat ≤ 57

/-- The value of a string of decimal digits, most significant first. -/
def digitsValue (ds : JsString) : Nat :=
  ds.foldl (fun acc c => 10 * acc + (c.toNat - 48)) 0

/-- `parseInt(s, 10)`: leading white space and one sign are skipped, the
longest prefix of decimal digits is read, and its value is rounded to a
double; no digit at all gives `NaN`. -/
def parseInt (s : JsString) : JsNumber :=
  let t := trimStart s
  let negative := t.head? = some '-'
  let rest := if t.head? = some '-' || t.head? = some '+' then t.tail else t
  let ds := rest.takeWhile isDigit
  if ds.isEmpty then .nan
  else
    match roundToDouble (digitsValue ds) with
    | none => if negative then .negInf else .posInf
    | some v => .int (if negative then - (v : Int) else v)

/-- The decimal numeral of a natural number. -/
def decimal (n : Nat) : JsString := Nat.toDigits 10 n

/-- The decimal literal of an integer: the numeral, behind a minus sign when
the integer is negative. -/
def decimalLiteral (z : Int) : JsString :=
  if z < 0 then '-' :: decimal z.natAbs else decimal z.natAbs

/-- Search of `Number::toString` for the shortest numeral that still rounds to
the double `x`: with `k` significant digits the candidates are the two
multiples of `10 ^ (len - k)` around `x`; the nearer one wins, the even one on
a tie.  `fuel` counts the lengths still to try. -/
def shortestDecimal (x len : Nat) : Nat → Nat → Nat
  | 0, _ => x
  | fuel + 1, k =>
    let p := 10 ^ (len - k)
    let lo := x / p * p
    let hi := lo + p
    let loOk := roundToDouble lo = some x
    let hiOk := roundToDouble hi = some x
    if loOk && hiOk then
      (if x - lo < hi - x then lo else if hi - x < x - lo then hi
        else if (x / p) % 2 = 0 then lo else hi)
    else if loOk then lo
    else if hiOk then hi
    else shortestDecimal x len fuel (k + 1)

/-- Removes the trailing zeros of a numeral. -/
def dropTrailingZeros (ds : JsString) : JsString :=
  (ds.reverse.dropWhile (fun c => c = '0')).reverse

/-- `Number::toString` on a positive integer-valued double: the shortest
numeral that rounds to it, written in full up to 21 digits and in exponent
form beyond. -/
def numberDigits (x : Nat) : JsString :=
  let len := (decimal x).length
  let ds := decimal (shortestDecimal x len len 1)
  if ds.length ≤ 21 then ds
  else
    match dropTrailingZeros ds with
    | [] => ds
    | [d] => d :: ('e' :: '+' :: decimal (ds.length - 1))
    | d :: more => d :: '.' :: (more ++ 'e' :: '+' :: decimal (ds.length - 1))

/-- `JSON.stringify` on a number: `null` for `NaN` and the infinities. -/
def serializeNumber : JsNumber → JsString
  | .nan => "null".toList
  | .posInf => "null".toList
  | .negInf => "null".toList
  | .int z => if z < 0 then '-' :: numberDigits z.natAbs else numberDigits z.natAbs

/-- The backslash character U+005C. -/
def backslash : Char := Char.ofNat 92

/-- A hexadecimal digit, lower case. -/
def hexDigit (n : Nat) : Char :=
  if n < 10 then Char.ofNat (48 + n) else Char.ofNat (87 + n)

/-- `QuoteJSONString` on one character. -/
def quoteJsonChar (c : Char) : JsString :=
  if c.toNat = 8 then [backslash, 'b']
  else if c.toNat = 9 then [backslash, 't']
  else if c.toNat = 10 then [backslash, 'n']
  else if c.toNat = 12 then [backslash, 'f']
  else if c.toNat = 13 then [backslash, 'r']
  else if c.toNat = 34 then [backslash, dquote]
  else if c.toNat = 92 then [backslash, backslash]
  else if c.toNat < 32 then
    [backslash, 'u', '0', '0', hexDigit (c.toNat / 16), hexDigit (c.toNat % 16)]
  else [c]

/-- `JSON.stringify` on a string (`QuoteJSONString`). -/
def quoteJsonString (s : JsString) : JsString :=
  dquote :: ((s.map quoteJsonChar).flatten ++ [dquote])

/-- `JSON.stringify({ query: q, k })`. -/
def stringifyBody (q : JsString) (k : JsNumber) : JsString :=
  "\x7b\"query\":".toList ++ quoteJsonString q ++ ",\"k\":".toList ++ serializeNumber k
    ++ "\x7d".toList

/-- The values of the three input elements when Recommend is clicked. -/
structure Inputs where
  apiBase : JsString
  query : JsString
  k : JsString

/-- A call of `fetch`. -/
structure Request where
  url : JsString
  method : JsString
  contentType : JsString
  body : JsString
deriving DecidableEq

/-- What the awaited `fetch` and `res.json()` give: the `fetch` promise
rejects, or a response arrives with a status and a body that parses as JSON
or makes `res.json()` reject. -/
inductive Response where
  | failed (e : JsError)
  | http (status : Nat) (body : Except JsError Json)

/-- `res.ok`: the status is in the range 200 to 299. -/
def statusOk (status : Nat) : Bool := 200 ≤ status && status ≤ 299

/-! ## The page -/

/-- The state of the page the handlers read and write: the text of the error
element, the rows of the table body, the `onclick` handler of the download
button (the pair `(q, arr)` its closure captured, `none` while it is unset)
and the queries of the Recommend calls still waiting for their response. -/
structure Page where
  errorText : JsString
  tableRows : List JsString
  exportTarget : Option (JsString × List Json)
  inFlight : List JsString

/-- The page after load: no handler on the download button, no call under way. -/
def Page.loaded (errorText : JsString) (tableRows : List JsString) : Page :=
  ⟨errorText, tableRows, none, []⟩

/-- The Recommend handler up to its `fetch`: clears error and table, validates
base URL and query, and issues the request. -/
def recommendClick (pg : Page) (inp : Inputs) : Page × Option Request :=
  let pg := { pg with errorText := [], tableRows := [] }
  let base := trim inp.apiBase
  if base.isEmpty then ({ pg with errorText := "Enter API base URL first.".toList }, none)
  else
    let q := trim inp.query
    if q.isEmpty then ({ pg with errorText := "Enter a query or JD.".toList }, none)
    else
      let k := parseInt (if inp.k.isEmpty then "10".toList else inp.k)
      ({ pg with inFlight := pg.inFlight ++ [q] },
        some { url := stripTrailingSlash base ++ "/recommend".toList
               method := "POST".toList
               contentType := "application/json".toList
               body := stringifyBody q k })

/-- The second interpolation of the row template:
`Array.isArray(r.test_type) ? r.test_type.join(', ') : ''`. -/
def testTypeCell (r : Json) : Except JsError JsString :=
  match getProp r "test_type" with
  | .error e => .error e
  | .ok (some (.arr items)) => joinItems ", ".toList items
  | .ok _ => .ok []

/-- The markup of one row: the template literal assigned to `tr.innerHTML`. -/
def rowMarkup (r : Json) : Except JsError JsString := do
  let url ← toStr (← getProp r "url")
  let types ← testTypeCell r
  let duration ← stringOrEmpty (← getProp r "duration")
  let adaptive ← getProp r "adaptive_support"
  let remote ← getProp r "remote_support"
  let description ← stringOrEmpty (← getProp r "description")
  pure ("\n        <td><a href=\"".toList ++ url
    ++ "\" target=\"_blank\" rel=\"noopener\">".toList ++ url ++ "</a></td>".toList
    ++ "\n        <td>".toList ++ types ++ "</td>".toList
    ++ "\n        <td>".toList ++ duration ++ "</td>".toList
    ++ "\n        <td>".toList ++ (if truthy adaptive then "Yes".toList else "No".toList)
    ++ "</td>".toList
    ++ "\n        <td>".toList ++ (if truthy remote then "Yes".toList else "No".toList)
    ++ "</td>".toList
    ++ "\n        <td>".toList ++ description ++ "</td>".toList
    ++ "\n      ".toList)

/-- The `arr.forEach` of the handler: the rows are appended one by one and an
exception leaves the rows appended so far. -/
def renderRows : List Json → List JsString → List JsString × Option JsError
  | [], rows => (rows, none)
  | r :: rs, rows =>
    match rowMarkup r with
    | .error e => (rows, some e)
    | .ok markup => renderRows rs (rows ++ [markup])

/-- `data.recommended_assessments || []`, as far as `arr.forEach` exists on it. -/
def recommendedAssessments (data : Json) : Except JsError (List Json) :=
  match getProp data "recommended_assessments" with
  | .error e => .error e
  | .ok v =>
    if truthy v then
      match v with
      | some (.arr items) => .ok items
      | _ => .error (typeError "arr.forEach is not a function")
    else .ok []

/-- The text of `e.message || e` in the template of the catch clause. -/
def errorDisplay (e : JsError) : JsString :=
  if e.message.isEmpty then e.name else e.message

/-- The catch clause. -/
def showError (pg : Page) (e : JsError) : Page :=
  { pg with errorText := "Error: ".toList ++ errorDisplay e }

/-- The error thrown on a status outside the success range. -/
def httpError (status : Nat) : JsError :=
  ⟨"Error".toList, "HTTP ".toList ++ decimal status⟩

/-- The Recommend handler from the arrival of the response on, for the call
that captured the query `q`. -/
def recommendSettle (pg : Page) (q : JsString) (resp : Response) : Page :=
  match resp with
  | .failed e => showError pg e
  | .http status body =>
    if statusOk status then
      match body with
      | .error e => showError pg e
      | .ok data =>
        match recommendedAssessments data with
        | .error e => showError pg e
        | .ok arr =>
          match renderRows arr pg.tableRows with
          | (rows, some e) => showError { pg with tableRows := rows } e
          | (rows, none) => { pg with tableRows := rows, exportTarget := some (q, arr) }
    else showError pg (httpError status)

/-- A click on the download button: nothing while no handler is set, otherwise
the text of the file `downloadCsv` produces (or the exception it throws). -/
def downloadClick (pg : Page) : Option (Except JsError JsString) :=
  match pg.exportTarget with
  | none => none
  | some (q, arr) => some (downloadCsv q arr)

/-- What happens on the page: a click on Recommend, the arrival of the
response of the `i`-th call still under way, a click on Download. -/
inductive Event where
  | recommend (inp : Inputs)
  | settle (i : Nat) (resp : Response)
  | download

/-- The page after an event. -/
def step (pg : Page) : Event → Page
  | .recommend inp => (recommendClick pg inp).1
  | .settle i resp =>
    match pg.inFlight[i]? with
    | none => pg
    | some q => recommendSettle { pg with inFlight := pg.inFlight.eraseIdx i } q resp
  | .download => pg

/-- The page after a sequence of events. -/
def run (pg : Page) : List Event → Page
  | [] => pg
  | ev :: evs => run (step pg ev) evs

/-- The successful Recommend call an event completes, if it completes one: the
response of a call under way arrives and the handler of that call reaches its
end without an exception; the pair is the query the call captured and its
result sequence. -/
def completedCall (pg : Page) : Event → Option (JsString × List Json)
  | .settle i (.http status (.ok data)) =>
    match pg.inFlight[i]?, statusOk status, recommendedAssessments data with
    | some q, true, .ok arr =>
      if (renderRows arr pg.tableRows).2.isNone then some (q, arr) else none
    | _, _, _ => none
  | _ => none

/-- The successful Recommend calls of a sequence of events, in the order of
their completion. -/
def completedCalls (pg : Page) : List Event → List (JsString × List Json)
  | [] => []
  | ev :: evs => (completedCall pg ev).toList ++ completedCalls (step pg ev) evs

/-! ## The reference CSV reader -/

/-- Where the reader stands: at the start of a record (`afterCr` when the
record before ended in a carriage return), at the start of a field, inside an
unquoted field, inside a quoted field, or behind a quote met inside a quoted
field. -/
inductive CsvMode where
  | recordStart (afterCr : Bool)
  | fieldStart
  | unquoted
  | quoted
  | afterQuote

/-- A standard CSV reader: fields are separated by commas; a record ends at
CR, LF or CRLF outside quotes; a quoted field may contain commas and line
breaks, and two double quotes inside it stand for one.  `rows` are the
records read, `fields` the fields of the current record, `field` the text of
the current field. -/
def parseCsvFrom : CsvMode → List (List JsString) → List JsString → JsString → JsString →
    List (List JsString)
  | .recordStart _, rows, _, _, [] => rows
  | _, rows, fields, field, [] => rows ++ [fields ++ [field]]
  | .quoted, rows, fields, field, c :: cs =>
    if c = dquote then parseCsvFrom .afterQuote rows fields field cs
    else parseCsvFrom .quoted rows fields (field ++ [c]) cs
  | .afterQuote, rows, fields, field, c :: cs =>
    if c = dquote then parseCsvFrom .quoted rows fields (field ++ [dquote]) cs
    else if c = ',' then parseCsvFrom .fieldStart rows (fields ++ [field]) [] cs
    else if c = cr then parseCsvFrom (.recordStart true) (rows ++ [fields ++ [field]]) [] [] cs
    else if c = lf then parseCsvFrom (.recordStart false) (rows ++ [fields ++ [field]]) [] [] cs
    else parseCsvFrom .unquoted rows fields (field ++ [c]) cs
  | .unquoted, rows, fields, field, c :: cs =>
    if c = ',' then parseCsvFrom .fieldStart rows (fields ++ [field]) [] cs
    else if c = cr then parseCsvFrom (.recordStart true) (rows ++ [fields ++ [field]]) [] [] cs
    else if c = lf then parseCsvFrom (.recordStart false) (rows ++ [fields ++ [field]]) [] [] cs
    else parseCsvFrom .unquoted rows fields (field ++ [c]) cs
  | .fieldStart, rows, fields, field, c :: cs =>
    if c = dquote then parseCsvFrom .quoted rows fields field cs
    else if c = ',' then parseCsvFrom .fieldStart rows (fields ++ [field]) [] cs
    else if c = cr then parseCsvFrom (.recordStart true) (rows ++ [fields ++ [field]]) [] [] cs
    else if c = lf then parseCsvFrom (.recordStart false) (rows ++ [fields ++ [field]]) [] [] cs
    else parseCsvFrom .unquoted rows fields (field ++ [c]) cs
  | .recordStart afterCr, rows, fields, field, c :: cs =>
    if c = lf && afterCr then parseCsvFrom (.recordStart false) rows fields field cs
    else if c = dquote then parseCsvFrom .quoted rows fields field cs
    else if c = ',' then parseCsvFrom .fieldStart rows (fields ++ [field]) [] cs
    else if c = cr then parseCsvFrom (.recordStart true) (rows ++ [fields ++ [field]]) [] [] cs
    else if c = lf then parseCsvFrom (.recordStart false) (rows ++ [fields ++ [field]]) [] [] cs
    else parseCsvFrom .unquoted rows fields (field ++ [c]) cs

/-- The records of a CSV text. -/
def parseCsv (text : JsString) : List (List JsString) :=
  parseCsvFrom (.recordStart false) [] [] [] text

/-! ## The rows the specification describes -/

/-- The contents of the six cells the specification gives the row of a record:
a link whose text and target are the url (a record without url reads
`undefined`); the test types joined with a comma and a space, empty when
there are none; the duration or nothing; `Yes` or `No` for adaptive support;
`Yes` or `No` for remote support; the description or nothing. -/
def expectedCells (r : Record) : List JsString :=
  [ "<a href=\"".toList ++ r.url.getD "undefined".toList
      ++ "\" target=\"_blank\" rel=\"noopener\">".toList ++ r.url.getD "undefined".toList
      ++ "</a>".toList,
    (match r.test_type with
      | some ts => ", ".toList.intercalate ts
      | none => []),
    (match r.duration with
      | some (.ofNumber digits) => digits
      | some (.ofString s) => s
      | none => []),
    (if r.adaptive_support then "Yes".toList else "No".toList),
    (if r.remote_support then "Yes".toList else "No".toList),
    r.description.getD [] ]

/-- The markup of a row with the given cells, laid out as the page lays it
out: every cell on a line of its own. -/
def rowOfCells (cells : List JsString) : JsString :=
  (cells.map (fun cell => "\n        <td>".toList ++ cell ++ "</td>".toList)).flatten
    ++ "\n      ".toList

/-- A field value the export writes so that it reads back: a value holding a
carriage return also holds a double quote, a comma or a line feed, so that
`escapeCsv` quotes it. -/
def ReadsBack (s : JsString) : Prop := cr ∈ s → (dquote ∈ s ∨ ',' ∈ s ∨ lf ∈ s)

/-- The number of places where a markup reads `<td>`, the tag that opens a
cell of a row. -/
def tdOpenings : JsString → Nat
  | [] => 0
  | c :: cs => tdOpenings cs + (if c = '<' ∧ cs.take 3 = ['t', 'd', '>'] then 1 else 0)

/-- A record none of whose texts holds the character `<`, with which a tag
starts. -/
def Record.plainText (r : Record) : Prop :=
  (∀ u, r.url = some u → '<' ∉ u)
  ∧ (∀ ts, r.test_type = some ts → ∀ t ∈ ts, '<' ∉ t)
  ∧ (∀ digits, r.duration = some (.ofNumber digits) → '<' ∉ digits)
  ∧ (∀ s, r.duration = some (.ofString s) → '<' ∉ s)
  ∧ (∀ s, r.description = some s → '<' ∉ s)

/-! ## Theorems -/

/-! ### Strings -/

theorem replaceQuotes_eq_flatten (s : JsString) :
    replaceQuotes s = (s.map (fun c => if c = dquote then [dquote, dquote] else [c])).flatten := by
  induction s with
  | nil => rfl
  | cons c cs ih =>
    by_cases h : c = dquote <;> simp [replaceQuotes, h, ih]

theorem not_crlf_of_mem_replaceCrLfRunsAux (b : Bool) (s : JsString) :
    ∀ c ∈ replaceCrLfRunsAux b s, c ≠ cr ∧ c ≠ lf := by
  induction s generalizing b with
  | nil => intro c hc; simp [replaceCrLfRunsAux] at hc
  | cons a as ih =>
    intro c hc
    by_cases ha : isCrLf a = true
    · cases b
      · simp only [replaceCrLfRunsAux, ha, if_true, Bool.false_eq_true, if_false,
          List.mem_cons] at hc
        rcases hc with hc | hc
        · subst hc; exact ⟨by decide, by decide⟩
        · exact ih true c hc
      · simp only [replaceCrLfRunsAux, ha, if_true] at hc
        exact ih true c hc
    · simp only [replaceCrLfRunsAux, ha, Bool.false_eq_true, if_false, List.mem_cons] at hc
      rcases hc with hc | hc
      · subst hc
        simp only [isCrLf, Bool.or_eq_true, decide_eq_true_eq, not_or] at ha
        exact ha
      · exact ih false c hc

theorem mem_of_mem_trim {s : JsString} {c : Char} (h : c ∈ trim s) : c ∈ s := by
  unfold trim trimEnd trimStart at h
  rw [List.mem_reverse] at h
  have h1 := (List.dropWhile_sublist isWhiteSpace).subset h
  rw [List.mem_reverse] at h1
  exact (List.dropWhile_sublist isWhiteSpace).subset h1

theorem head?_dropWhile_isWhiteSpace (s : JsString) (c : Char)
    (h : (s.dropWhile isWhiteSpace).head? = some c) : isWhiteSpace c = false := by
  induction s with
  | nil => simp at h
  | cons a as ih =>
    rw [List.dropWhile_cons] at h
    by_cases ha : isWhiteSpace a = true
    · simp only [ha, if_true] at h; exact ih h
    · simp only [ha, Bool.false_eq_true, if_false, List.head?_cons, Option.some.injEq] at h
      subst h; simpa using ha

theorem getLast?_trimEnd (s : JsString) (c : Char) (h : (trimEnd s).getLast? = some c) :
    isWhiteSpace c = false := by
  unfold trimEnd at h
  rw [List.getLast?_reverse] at h
  exact head?_dropWhile_isWhiteSpace _ c h

theorem head?_trimEnd (s : JsString) (c : Char)
    (hs : ∀ d, s.head? = some d → isWhiteSpace d = false)
    (h : (trimEnd s).head? = some c) : isWhiteSpace c = false := by
  cases s with
  | nil => simp [trimEnd] at h
  | cons a as =>
    have ha : isWhiteSpace a = false := hs a rfl
    have hsuf : (trimEnd (a :: as)).reverse <:+ (a :: as).reverse := by
      unfold trimEnd; rw [List.reverse_reverse]; exact List.dropWhile_suffix _
    have hpre : trimEnd (a :: as) <+: a :: as := by
      have := List.reverse_prefix.mpr hsuf
      simpa using this
    obtain ⟨t, ht⟩ := hpre
    cases hte : trimEnd (a :: as) with
    | nil => rw [hte] at h; simp at h
    | cons b bs =>
      rw [hte] at h ht
      simp only [List.cons_append, List.cons.injEq] at ht
      simp only [List.head?_cons, Option.some.injEq] at h
      rw [← h, ht.1]; exact ha

theorem escapeCsvString_of_plain {s : JsString} (h1 : dquote ∉ s) (h2 : ',' ∉ s) (h3 : lf ∉ s) :
    escapeCsvString s = s := by
  simp [escapeCsvString, h1, h2, h3]

/-! ### The records of the data model -/

theorem getProp_url_toJson (r : Record) :
    getProp r.toJson "url" = .ok (r.url.map Json.str) := by
  rcases r with ⟨url, tt, du, ad, re, de⟩
  cases url <;> cases tt <;> cases du <;> cases de <;>
    simp [Record.toJson, getProp, optProp, lookupProp]

theorem urlOrEmpty_toJson (r : Record) :
    urlOrEmpty r.toJson = .ok (some (.str (r.url.getD []))) := by
  unfold urlOrEmpty
  rw [getProp_url_toJson]
  cases h : r.url with
  | none => simp [truthy]
  | some u =>
    cases u with
    | nil => simp [truthy]
    | cons a as => simp [truthy]

theorem pushRows_toJson (q : JsString) (recs : List Record) :
    pushRows q (recs.map Record.toJson)
      = .ok (recs.map (fun r => [some (.str (normalize q)), some (.str (r.url.getD []))])) := by
  induction recs with
  | nil => rfl
  | cons r rs ih => simp [pushRows, urlOrEmpty_toJson, ih]

theorem csvLines_strings (rows : List (JsString × JsString)) :
    csvLines (rows.map (fun p => [some (.str p.1), some (.str p.2)]))
      = .ok (rows.map (fun p => escapeCsvString p.1 ++ ',' :: escapeCsvString p.2)) := by
  induction rows with
  | nil => rfl
  | cons p ps ih =>
    simp [csvLines, escapeCols, escapeCsv, stringOrEmpty, jsonToString, ih, List.intercalate]

/-- C1. For every string `s`: when `s` contains a comma, a double quote or a
line feed, `escapeCsv(s)` is `s` with every double quote replaced by two double
quotes, between one leading and one trailing double quote; for every other
string `escapeCsv(s)` is `s`. -/
theorem escapeCsv_spec (s : JsString) :
    escapeCsv (some (.str s)) = .ok
      (if ',' ∈ s ∨ dquote ∈ s ∨ lf ∈ s then
        [dquote] ++ (s.map (fun c => if c = dquote then [dquote, dquote] else [c])).flatten
          ++ [dquote]
      else s) := by
  simp only [escapeCsv, stringOrEmpty, jsonToString, escapeCsvString, replaceQuotes_eq_flatten]
  by_cases h1 : dquote ∈ s <;> by_cases h2 : ',' ∈ s <;> by_cases h3 : lf ∈ s <;>
    simp [h1, h2, h3]

/-- C2. For every query `q`, `normalize(q)`, the value of the Query column,
contains neither a carriage return nor a line feed, and neither starts nor
ends with a white-space character. -/
theorem normalize_clean (q : JsString) :
    (∀ c ∈ normalize q, c ≠ cr ∧ c ≠ lf)
    ∧ (∀ c, (normalize q).head? = some c → isWhiteSpace c = false)
    ∧ (∀ c, (normalize q).getLast? = some c → isWhiteSpace c = false) := by
  refine ⟨?_, ?_, ?_⟩
  · intro c hc
    exact not_crlf_of_mem_replaceCrLfRunsAux false _ c (mem_of_mem_trim hc)
  · intro c hc
    exact head?_trimEnd _ c (fun d hd => head?_dropWhile_isWhiteSpace _ d hd) hc
  · intro c hc
    exact getLast?_trimEnd _ c hc

theorem downloadCsv_toJson (q : JsString) (recs : List Record) :
    downloadCsv q (recs.map Record.toJson) = .ok
      (bom :: [cr, lf].intercalate
        ((escapeCsvString "Query".toList ++ ',' :: escapeCsvString "Assessment_url".toList) ::
          (recs.map (fun r => (normalize q, r.url.getD []))).map
            (fun p => escapeCsvString p.1 ++ ',' :: escapeCsvString p.2))) := by
  have h := csvLines_strings
    (("Query".toList, "Assessment_url".toList) :: recs.map (fun r => (normalize q, r.url.getD [])))
  simp only [List.map_cons, List.map_map, Function.comp_def] at h
  simp only [downloadCsv, pushRows_toJson, h, List.map_map, Function.comp_def]

theorem not_cr_mem_normalize (q : JsString) : cr ∉ normalize q := fun h =>
  (not_crlf_of_mem_replaceCrLfRunsAux false _ cr (mem_of_mem_trim h)).1 rfl

/-- C3. For every query `q` and every sequence of `N` records, the text
`downloadCsv` puts in the file is the byte-order mark followed by `N + 1` rows
joined with CRLF: the row `Query,Assessment_url`, then for each record, in the
order of the sequence, `escapeCsv(normalize(q))`, a comma, and `escapeCsv` of
the record's url (of the empty string when the record has none). -/
theorem downloadCsv_text (q : JsString) (recs : List Record) :
    downloadCsv q (recs.map Record.toJson) = .ok
      (bom :: [cr, lf].intercalate
        ("Query,Assessment_url".toList ::
          recs.map (fun r =>
            escapeCsvString (normalize q) ++ ',' :: escapeCsvString (r.url.getD []))))
    ∧ ("Query,Assessment_url".toList ::
          recs.map (fun r =>
            escapeCsvString (normalize q) ++ ',' :: escapeCsvString (r.url.getD []))).length
        = recs.length + 1 := by
  refine ⟨?_, by simp⟩
  rw [downloadCsv_toJson, List.map_map]
  rfl

/-- C5 (as the code behaves). For the query `a,b`, line feed, space, `c` and one
record with url `http://x`, the CSV body is `Query,Assessment_url`, CRLF,
`"a,b  c",http://x`: the line feed becomes a space next to the space that was
already there, and no CRLF follows the last row. -/
theorem scenario3_body :
    csvBody "a,b\n c".toList [Record.toJson ⟨some "http://x".toList, none, none, false, false, none⟩]
      = .ok "Query,Assessment_url\r\n\"a,b  c\",http://x".toList := by
  rfl

/-- C5 (as stated) fails: the CSV body of scenario 3 is not
`Query,Assessment_url`, CRLF, `"a,b c",http://x`, CRLF. -/
theorem scenario3_body_counterexample :
    csvBody "a,b\n c".toList [Record.toJson ⟨some "http://x".toList, none, none, false, false, none⟩]
      ≠ .ok "Query,Assessment_url\r\n\"a,b c\",http://x\r\n".toList := by
  rw [scenario3_body]
  intro h
  injection h with h
  revert h
  decide

/-! ### Decimal numerals and `parseInt` -/

theorem digitChar_toNat {d : Nat} (h : d < 10) : (Nat.digitChar d).toNat = 48 + d := by
  interval_cases d <;> rfl

theorem isDigit_digitChar {d : Nat} (h : d < 10) : isDigit (Nat.digitChar d) = true := by
  interval_cases d <;> rfl

theorem toDigitsCore_append (fuel n : Nat) (ds : List Char) :
    Nat.toDigitsCore 10 fuel n ds = Nat.toDigitsCore 10 fuel n [] ++ ds := by
  induction fuel generalizing n ds with
  | zero => simp [Nat.toDigitsCore]
  | succ f ih =>
    simp only [Nat.toDigitsCore]
    split
    · simp
    · rw [ih (n / 10) (Nat.digitChar (n % 10) :: ds), ih (n / 10) [Nat.digitChar (n % 10)]]
      simp

theorem digitsValue_append_singleton (xs : JsString) (c : Char) :
    digitsValue (xs ++ [c]) = 10 * digitsValue xs + (c.toNat - 48) := by
  simp [digitsValue, List.foldl_append]

theorem toDigitsCore_spec (fuel n : Nat) (h : n < fuel) :
    digitsValue (Nat.toDigitsCore 10 fuel n []) = n
    ∧ (∀ c ∈ Nat.toDigitsCore 10 fuel n [], isDigit c = true)
    ∧ Nat.toDigitsCore 10 fuel n [] ≠ [] := by
  induction fuel generalizing n with
  | zero => omega
  | succ f ih =>
    simp only [Nat.toDigitsCore]
    split
    · rename_i h0
      have hn : n < 10 := by omega
      have hm : n % 10 = n := Nat.mod_eq_of_lt hn
      rw [hm]
      refine ⟨?_, ?_, by simp⟩
      · simp [digitsValue, digitChar_toNat hn]
      · intro c hc
        simp only [List.mem_singleton] at hc
        rw [hc]; exact isDigit_digitChar hn
    · rename_i h0
      have hlt : n / 10 < f := by omega
      obtain ⟨h1, h2, h3⟩ := ih (n / 10) hlt
      rw [toDigitsCore_append]
      have hd : n % 10 < 10 := Nat.mod_lt _ (by norm_num)
      refine ⟨?_, ?_, by simp⟩
      · rw [digitsValue_append_singleton, h1, digitChar_toNat hd]
        omega
      · intro c hc
        rw [List.mem_append, List.mem_singleton] at hc
        rcases hc with hc | hc
        · exact h2 c hc
        · rw [hc]; exact isDigit_digitChar hd

theorem decimal_spec (n : Nat) :
    digitsValue (decimal n) = n ∧ (∀ c ∈ decimal n, isDigit c = true) ∧ decimal n ≠ [] :=
  toDigitsCore_spec (n + 1) n (Nat.lt_succ_self n)

theorem isDigit_not_special {c : Char} (h : isDigit c = true) :
    isWhiteSpace c = false ∧ c ≠ '-' ∧ c ≠ '+' := by
  simp only [isDigit, Bool.and_eq_true, decide_eq_true_eq] at h
  refine ⟨?_, ?_, ?_⟩
  · simp only [isWhiteSpace, Bool.or_eq_false_iff, Bool.and_eq_false_imp, decide_eq_true_eq,
      decide_eq_false_iff_not, not_le]
    refine ⟨?_, fun h' => by omega⟩
    simp only [List.contains, List.elem_eq_mem, decide_eq_false_iff_not, List.mem_cons,
      List.mem_singleton, not_or, List.not_mem_nil, not_false_eq_true, and_true]
    omega
  · rintro rfl; revert h; decide
  · rintro rfl; revert h; decide

theorem takeWhile_eq_self {p : Char → Bool} {s : JsString} (h : ∀ c ∈ s, p c = true) :
    s.takeWhile p = s := by
  induction s with
  | nil => rfl
  | cons a as ih =>
    have ha := h a (List.mem_cons_self _ _)
    rw [List.takeWhile_cons, ha]
    simp only [if_true]
    rw [ih (fun c hc => h c (List.mem_cons_of_mem _ hc))]

theorem roundToDouble_of_le {m : Nat} (h : m ≤ 2 ^ 53) : roundToDouble m = some m := by
  rcases Nat.lt_or_eq_of_le h with h | h
  · unfold roundToDouble; rw [if_pos h]
  · subst h; rfl

theorem parseInt_decimal (m : Nat) (h : m ≤ 2 ^ 53) : parseInt (decimal m) = .int m := by
  obtain ⟨hv, hd, hne⟩ := decimal_spec m
  cases hs : decimal m with
  | nil => exact absurd hs hne
  | cons a as =>
    rw [hs] at hv hd
    obtain ⟨hw, hminus, hplus⟩ := isDigit_not_special (hd a (List.mem_cons_self _ _))
    simp only [parseInt, trimStart, List.dropWhile_cons, hw, Bool.false_eq_true, if_false,
      List.head?_cons, Option.some.injEq, hminus, hplus, decide_False, Bool.or_self,
      takeWhile_eq_self hd, List.isEmpty_cons, hv, roundToDouble_of_le h]

theorem parseInt_minus_decimal (m : Nat) (h : m ≤ 2 ^ 53) :
    parseInt ('-' :: decimal m) = .int (-(m : Int)) := by
  obtain ⟨hv, hd, hne⟩ := decimal_spec m
  have hw : isWhiteSpace '-' = false := by decide
  have hne' : (decimal m).isEmpty = false := by
    cases hs : decimal m with
    | nil => exact absurd hs hne
    | cons a as => rfl
  simp only [parseInt, trimStart, List.dropWhile_cons, hw, Bool.false_eq_true, if_false,
    List.head?_cons, decide_True, Bool.true_or, if_true, List.tail_cons,
    takeWhile_eq_self hd, hne', hv, roundToDouble_of_le h]

theorem parseInt_decimalLiteral (n : Int) (h : n.natAbs ≤ 2 ^ 53) :
    parseInt (decimalLiteral n) = .int n := by
  unfold decimalLiteral
  by_cases hn : n < 0
  · rw [if_pos hn, parseInt_minus_decimal _ h]
    congr 1; omega
  · rw [if_neg hn, parseInt_decimal _ h]
    congr 1; omega

theorem decimalLiteral_ne_nil (n : Int) : decimalLiteral n ≠ [] := by
  unfold decimalLiteral
  split
  · simp
  · exact (decimal_spec _).2.2

theorem isEmpty_eq_false_of_ne_nil {s : JsString} (h : s ≠ []) : s.isEmpty = false := by
  cases s with
  | nil => exact absurd rfl h
  | cons a as => rfl

/-- C6. For every state of the page, a click on Recommend issues a request if
and only if the base-URL input and the query input are both non-empty after
trimming; an empty trimmed base URL sets the error text to the non-empty
`Enter API base URL first.` without a request, and a base URL with an empty
trimmed query sets it to the non-empty `Enter a query or JD.` without a
request. -/
theorem recommendClick_validation (pg : Page) (inp : Inputs) :
    ((recommendClick pg inp).2.isSome = true ↔ (trim inp.apiBase ≠ [] ∧ trim inp.query ≠ []))
    ∧ (trim inp.apiBase = [] →
        (recommendClick pg inp).1.errorText = "Enter API base URL first.".toList
        ∧ (recommendClick pg inp).1.errorText ≠ []
        ∧ (recommendClick pg inp).2 = none)
    ∧ (trim inp.apiBase ≠ [] → trim inp.query = [] →
        (recommendClick pg inp).1.errorText = "Enter a query or JD.".toList
        ∧ (recommendClick pg inp).1.errorText ≠ []
        ∧ (recommendClick pg inp).2 = none) := by
  by_cases hb : trim inp.apiBase = []
  · simp [recommendClick, hb]
  · by_cases hq : trim inp.query = []
    · simp [recommendClick, hb, hq, isEmpty_eq_false_of_ne_nil hb]
    · simp [recommendClick, hb, hq, isEmpty_eq_false_of_ne_nil hb, isEmpty_eq_false_of_ne_nil hq]

/-- C6, witness: an empty base URL gives the first message and no request. -/
theorem recommendClick_validation_witness :
    (recommendClick (Page.loaded [] []) ⟨"  ".toList, "java".toList, []⟩).1.errorText
        = "Enter API base URL first.".toList
    ∧ (recommendClick (Page.loaded [] []) ⟨"  ".toList, "java".toList, []⟩).1.errorText ≠ []
    ∧ (recommendClick (Page.loaded [] []) ⟨"  ".toList, "java".toList, []⟩).2 = none :=
  (recommendClick_validation (Page.loaded [] []) ⟨"  ".toList, "java".toList, []⟩).2.1
    (by decide)

/-- C7 (amended). For every Recommend click that passes validation the POST
body is `JSON.stringify` of the object with the two fields `query` and `k`,
where `query` is the trimmed query text and `k` is 10 when the result-count
input is empty and the integer `n` when the input is the decimal literal of an
integer `n` of magnitude at most `2 ^ 53`; the query `java developer` with an
empty result-count input gives the body `{"query":"java developer","k":10}`. -/
theorem recommend_body (pg : Page) (inp : Inputs)
    (hb : trim inp.apiBase ≠ []) (hq : trim inp.query ≠ []) :
    (inp.k = [] → (recommendClick pg inp).2.map Request.body
        = some (stringifyBody (trim inp.query) (.int 10)))
    ∧ (∀ n : Int, n.natAbs ≤ 2 ^ 53 → inp.k = decimalLiteral n →
        (recommendClick pg inp).2.map Request.body
          = some (stringifyBody (trim inp.query) (.int n)))
    ∧ (trim inp.query = "java developer".toList → inp.k = [] →
        (recommendClick pg inp).2.map Request.body
          = some "\x7b\"query\":\"java developer\",\"k\":10\x7d".toList) := by
  have hreq : (recommendClick pg inp).2.map Request.body
      = some (stringifyBody (trim inp.query)
          (parseInt (if inp.k.isEmpty then "10".toList else inp.k))) := by
    simp only [recommendClick, isEmpty_eq_false_of_ne_nil hb, isEmpty_eq_false_of_ne_nil hq,
      Bool.false_eq_true, if_false, Option.map_some']
  refine ⟨?_, ?_, ?_⟩
  · intro hk
    rw [hreq, hk]
    rfl
  · intro n hn hk
    rw [hreq, hk, isEmpty_eq_false_of_ne_nil (decimalLiteral_ne_nil n)]
    simp only [Bool.false_eq_true, if_false, parseInt_decimalLiteral n hn]
  · intro hq' hk
    rw [hreq, hk, hq']
    rfl

/-- C7, witness: ` java developer ` with an empty result-count input. -/
theorem recommend_body_witness :
    (recommendClick (Page.loaded [] []) ⟨"http://h/".toList, " java developer ".toList, []⟩).2.map
        Request.body
      = some "\x7b\"query\":\"java developer\",\"k\":10\x7d".toList :=
  (recommend_body (Page.loaded [] []) ⟨"http://h/".toList, " java developer ".toList, []⟩
    (by decide) (by decide)).2.2 (by decide) rfl

/-- C7 (as stated) fails: with the result-count input `9007199254740993`, the
decimal literal of `2 ^ 53 + 1`, the body carries `k` as `9007199254740992`,
which is not the integer typed. -/
theorem recommend_body_counterexample :
    decimalLiteral (2 ^ 53 + 1) = "9007199254740993".toList
    ∧ (recommendClick (Page.loaded [] [])
        ⟨"http://h".toList, "q".toList, decimalLiteral (2 ^ 53 + 1)⟩).2.map Request.body
      = some "\x7b\"query\":\"q\",\"k\":9007199254740992\x7d".toList
    ∧ (recommendClick (Page.loaded [] [])
        ⟨"http://h".toList, "q".toList, decimalLiteral (2 ^ 53 + 1)⟩).2.map Request.body
      ≠ some (stringifyBody (trim "q".toList) (.int (2 ^ 53 + 1))) := by
  refine ⟨by rfl, by rfl, ?_⟩
  decide

/-! ### The Recommend handler -/

theorem recommendClick_valid (pg : Page) (inp : Inputs)
    (hb : trim inp.apiBase ≠ []) (hq : trim inp.query ≠ []) :
    (recommendClick pg inp).1
      = ⟨[], [], pg.exportTarget, pg.inFlight ++ [trim inp.query]⟩ := by
  simp only [recommendClick, isEmpty_eq_false_of_ne_nil hb, isEmpty_eq_false_of_ne_nil hq,
    Bool.false_eq_true, if_false]

theorem step_settle_last (pg : Page) (q : JsString) (resp : Response) :
    step ⟨pg.errorText, pg.tableRows, pg.exportTarget, pg.inFlight ++ [q]⟩
        (.settle pg.inFlight.length resp)
      = recommendSettle pg q resp := by
  simp [step, List.eraseIdx_append_of_length_le]

theorem step_settle_inFlight (pg : Page) (i : Nat) (q : JsString) (resp : Response)
    (h : pg.inFlight[i]? = some q) :
    step pg (.settle i resp)
      = recommendSettle { pg with inFlight := pg.inFlight.eraseIdx i } q resp := by
  simp only [step, h]

theorem recommendClick_inFlight_last (pg : Page) (inp : Inputs)
    (hb : trim inp.apiBase ≠ []) (hq : trim inp.query ≠ []) :
    (recommendClick pg inp).1.inFlight[pg.inFlight.length]? = some (trim inp.query) := by
  rw [recommendClick_valid pg inp hb hq]
  simp

theorem recommendedAssessments_missing (data : Json) (hnull : data ≠ .null)
    (hmiss : ∀ props, data = .obj props →
      lookupProp "recommended_assessments".toList props = none) :
    recommendedAssessments data = .ok [] := by
  cases data with
  | null => exact absurd rfl hnull
  | obj props =>
    have hm := hmiss props rfl
    simp only [recommendedAssessments, getProp, hm, truthy, Bool.false_eq_true, if_false]
  | _ => simp [recommendedAssessments, getProp, truthy]

theorem settle_missing_field (pg : Page) (i : Nat) (q : JsString) (status : Nat) (data : Json)
    (hi : pg.inFlight[i]? = some q) (hs : statusOk status = true) (hnull : data ≠ .null)
    (hmiss : ∀ props, data = .obj props →
      lookupProp "recommended_assessments".toList props = none) :
    (step pg (.settle i (.http status (.ok data)))).tableRows = pg.tableRows
    ∧ (step pg (.settle i (.http status (.ok data)))).errorText = pg.errorText
    ∧ (step pg (.settle i (.http status (.ok data)))).exportTarget = some (q, []) := by
  rw [step_settle_inFlight pg i q _ hi]
  simp [recommendSettle, hs, recommendedAssessments_missing data hnull hmiss, renderRows]

/-- C8 (amended). For every response to a Recommend call with a success status
whose body parses as a JSON value other than `null` that does not have the
field `recommended_assessments`, the result is the empty sequence and no error
is reported: whatever the page and whichever call under way the response
belongs to, handling it adds no row to the table, leaves the error text as it
is, and arms the export with the query of that call and the empty sequence;
when the response is the next event after the click of its call, the table
has no rows and the error text is empty after the call. -/
theorem missing_field_is_empty (status : Nat) (data : Json)
    (hs : statusOk status = true) (hnull : data ≠ .null)
    (hmiss : ∀ props, data = .obj props →
      lookupProp "recommended_assessments".toList props = none) :
    (∀ (pg : Page) (i : Nat) (q : JsString), pg.inFlight[i]? = some q →
      (step pg (.settle i (.http status (.ok data)))).tableRows = pg.tableRows
      ∧ (step pg (.settle i (.http status (.ok data)))).errorText = pg.errorText
      ∧ (step pg (.settle i (.http status (.ok data)))).exportTarget = some (q, []))
    ∧ (∀ (pg : Page) (inp : Inputs), trim inp.apiBase ≠ [] → trim inp.query ≠ [] →
      (step (recommendClick pg inp).1
          (.settle pg.inFlight.length (.http status (.ok data)))).tableRows = []
      ∧ (step (recommendClick pg inp).1
          (.settle pg.inFlight.length (.http status (.ok data)))).errorText = []
      ∧ (step (recommendClick pg inp).1
          (.settle pg.inFlight.length (.http status (.ok data)))).exportTarget
        = some (trim inp.query, [])) := by
  refine ⟨fun pg i q hi => settle_missing_field pg i q status data hi hs hnull hmiss, ?_⟩
  intro pg inp hb hq
  have h := settle_missing_field (recommendClick pg inp).1 pg.inFlight.length (trim inp.query)
    status data (recommendClick_inFlight_last pg inp hb hq) hs hnull hmiss
  rw [recommendClick_valid pg inp hb hq] at h ⊢
  exact h

/-- C8, witness: a `200` response whose body is the empty object, as the next
event after the click. -/
theorem missing_field_is_empty_witness :
    (step (recommendClick (Page.loaded [] []) (Inputs.mk "http://h".toList "q".toList [])).1
        (.settle 0 (.http 200 (.ok (.obj []))))).tableRows = []
    ∧ (step (recommendClick (Page.loaded [] []) (Inputs.mk "http://h".toList "q".toList [])).1
        (.settle 0 (.http 200 (.ok (.obj []))))).errorText = []
    ∧ (step (recommendClick (Page.loaded [] []) (Inputs.mk "http://h".toList "q".toList [])).1
        (.settle 0 (.http 200 (.ok (.obj []))))).exportTarget
      = some (trim "q".toList, []) :=
  (missing_field_is_empty 200 (.obj []) (by decide) (by simp)
    (by intro props h; cases h; rfl)).2
    (Page.loaded [] []) (Inputs.mk "http://h".toList "q".toList []) (by decide) (by decide)

/-- C8 (as stated) fails twice.  A `200` response whose body is the JSON text
`null` parses, has no field `recommended_assessments`, and yet the error text
is set and the export stays unarmed.  And with two overlapping calls, where
the second call gets one record before the first call gets the empty object,
the table holds one row, not none, after the first call. -/
theorem missing_field_counterexample :
    ((step (recommendClick (Page.loaded [] []) (Inputs.mk "http://h".toList "q".toList [])).1
        (.settle 0 (.http 200 (.ok .null)))).errorText ≠ []
      ∧ (step (recommendClick (Page.loaded [] []) (Inputs.mk "http://h".toList "q".toList [])).1
        (.settle 0 (.http 200 (.ok .null)))).exportTarget = none)
    ∧ (run (Page.loaded [] [])
        [.recommend (Inputs.mk "http://h".toList "first".toList []),
         .recommend (Inputs.mk "http://h".toList "second".toList []),
         .settle 1 (.http 200 (.ok (.obj [("recommended_assessments".toList,
            .arr [.obj [("url".toList, .str "http://x".toList)]])]))),
         .settle 0 (.http 200 (.ok (.obj [])))]).tableRows.length = 1 := by
  refine ⟨⟨?_, by rfl⟩, by rfl⟩
  rw [show (step (recommendClick (Page.loaded [] [])
        (Inputs.mk "http://h".toList "q".toList [])).1
        (.settle 0 (.http 200 (.ok .null)))).errorText
      = "Error: Cannot read properties of null (reading 'recommended_assessments')".toList
      from rfl]
  decide

/-! ### The export target -/

theorem showError_exportTarget (pg : Page) (e : JsError) :
    (showError pg e).exportTarget = pg.exportTarget := rfl

theorem recommendClick_exportTarget (pg : Page) (inp : Inputs) :
    (recommendClick pg inp).1.exportTarget = pg.exportTarget := by
  unfold recommendClick
  simp only
  split
  · rfl
  · split <;> rfl

theorem recommendClick_tableRows (pg : Page) (inp : Inputs) :
    (recommendClick pg inp).1.tableRows = [] := by
  unfold recommendClick
  simp only
  split
  · rfl
  · split <;> rfl

theorem recommendSettle_exportTarget (pg : Page) (q : JsString) (resp : Response) :
    (recommendSettle pg q resp).exportTarget
      = match resp with
        | .http status (.ok data) =>
          (match statusOk status, recommendedAssessments data with
            | true, .ok arr =>
              if (renderRows arr pg.tableRows).2.isNone then some (q, arr) else pg.exportTarget
            | _, _ => pg.exportTarget)
        | _ => pg.exportTarget := by
  cases resp with
  | failed e => rfl
  | http status body =>
    cases body with
    | error e =>
      simp only [recommendSettle]
      split <;> rfl
    | ok data =>
      simp only [recommendSettle]
      cases hs : statusOk status
      · simp [showError]
      · cases hr : recommendedAssessments data with
        | error e => simp [showError]
        | ok arr =>
          simp only [if_true]
          rcases hrr : renderRows arr pg.tableRows with ⟨rows, _ | e⟩
          · simp
          · simp [showError]

theorem step_exportTarget (pg : Page) (ev : Event) :
    (step pg ev).exportTarget = (completedCall pg ev).or pg.exportTarget := by
  cases ev with
  | recommend inp => simp [step, completedCall, recommendClick_exportTarget]
  | download => simp [step, completedCall]
  | settle i resp =>
    simp only [step]
    cases hq : pg.inFlight[i]? with
    | none =>
      cases resp with
      | failed e => simp [completedCall]
      | http status body => cases body <;> simp [completedCall, hq]
    | some q =>
      simp only [recommendSettle_exportTarget]
      cases resp with
      | failed e => simp [completedCall]
      | http status body =>
        cases body with
        | error e => simp [completedCall]
        | ok data =>
          simp only [completedCall, hq]
          cases statusOk status
          · simp
          · cases recommendedAssessments data with
            | error e => simp
            | ok arr =>
              simp only
              split <;> simp

theorem getLast?_toList_append {α : Type} (o : Option α) (l : List α) :
    (o.toList ++ l).getLast? = l.getLast?.or o := by
  induction l using List.reverseRecOn with
  | nil => cases o <;> simp
  | append_singleton l a _ =>
    rw [← List.append_assoc]
    simp

theorem run_exportTarget (pg : Page) (evs : List Event) :
    (run pg evs).exportTarget = (completedCalls pg evs).getLast?.or pg.exportTarget := by
  induction evs generalizing pg with
  | nil => simp [run, completedCalls]
  | cons ev evs ih =>
    rw [run, completedCalls, ih, step_exportTarget, getLast?_toList_append]
    cases (completedCalls (step pg ev) evs).getLast? <;> simp

/-- C9. In every state reached from the loaded page by a sequence of Recommend
clicks, arrivals of responses (of any kind) and Download clicks, the export
target is the pair (trimmed query, result sequence) of the successful
Recommend call completed last; it is unset exactly when no Recommend call has
succeeded so far, and then a Download click does nothing.  A Recommend click
that fails validation, a transport failure, a status outside the success
range and a body that fails to parse leave the export target unchanged. -/
theorem export_target_invariant (errorText : JsString) (tableRows : List JsString)
    (evs : List Event) :
    (run (Page.loaded errorText tableRows) evs).exportTarget
        = (completedCalls (Page.loaded errorText tableRows) evs).getLast?
    ∧ ((run (Page.loaded errorText tableRows) evs).exportTarget = none
        ↔ completedCalls (Page.loaded errorText tableRows) evs = [])
    ∧ ((run (Page.loaded errorText tableRows) evs).exportTarget = none →
        downloadClick (run (Page.loaded errorText tableRows) evs) = none
        ∧ step (run (Page.loaded errorText tableRows) evs) .download
          = run (Page.loaded errorText tableRows) evs)
    ∧ (∀ inp, (recommendClick (run (Page.loaded errorText tableRows) evs) inp).2 = none →
        (step (run (Page.loaded errorText tableRows) evs) (.recommend inp)).exportTarget
          = (run (Page.loaded errorText tableRows) evs).exportTarget)
    ∧ (∀ i e,
        (step (run (Page.loaded errorText tableRows) evs) (.settle i (.failed e))).exportTarget
          = (run (Page.loaded errorText tableRows) evs).exportTarget)
    ∧ (∀ i status body, statusOk status = false →
        (step (run (Page.loaded errorText tableRows) evs)
            (.settle i (.http status body))).exportTarget
          = (run (Page.loaded errorText tableRows) evs).exportTarget)
    ∧ (∀ i status e,
        (step (run (Page.loaded errorText tableRows) evs)
            (.settle i (.http status (.error e)))).exportTarget
          = (run (Page.loaded errorText tableRows) evs).exportTarget) := by
  have hrun : (run (Page.loaded errorText tableRows) evs).exportTarget
      = (completedCalls (Page.loaded errorText tableRows) evs).getLast? := by
    rw [run_exportTarget]
    simp [Page.loaded]
  refine ⟨hrun, ?_, ?_, ?_, ?_, ?_, ?_⟩
  · rw [hrun, List.getLast?_eq_none_iff]
  · intro h
    exact ⟨by simp [downloadClick, h], rfl⟩
  · intro inp _
    rw [step_exportTarget]; rfl
  · intro i e
    rw [step_exportTarget]; rfl
  · intro i status body hs
    rw [step_exportTarget]
    cases body <;> simp [completedCall, hs]
  · intro i status e
    rw [step_exportTarget]; rfl

/-! ### The rendered rows -/

theorem intercalate_cons_eq (sep x : JsString) (rest : List JsString) :
    sep.intercalate (x :: rest) = x ++ (rest.map (fun y => sep ++ y)).flatten := by
  induction rest generalizing x with
  | nil => simp [List.intercalate]
  | cons y ys ih =>
    have h := ih y
    simp only [List.intercalate, List.intersperse, List.flatten, List.map_cons,
      List.append_assoc] at h ⊢
    rw [h]

theorem joinRest_strings (sep : JsString) (ts : List JsString) :
    joinRest sep (ts.map Json.str) = .ok ((ts.map (fun y => sep ++ y)).flatten) := by
  induction ts with
  | nil => rfl
  | cons t ts ih =>
    simp only [List.map_cons, joinRest, jsonToString, ih, List.flatten, List.append_assoc]

theorem joinItems_strings (sep : JsString) (ts : List JsString) :
    joinItems sep (ts.map Json.str) = .ok (sep.intercalate ts) := by
  cases ts with
  | nil => rfl
  | cons t ts =>
    simp only [List.map_cons, joinItems, jsonToString, joinRest_strings, intercalate_cons_eq]

theorem getProp_test_type_toJson (r : Record) :
    getProp r.toJson "test_type"
      = .ok (r.test_type.map (fun ts => Json.arr (ts.map Json.str))) := by
  rcases r with ⟨url, tt, du, ad, re, de⟩
  cases url <;> cases tt <;> cases du <;> cases de <;>
    simp [Record.toJson, getProp, optProp, lookupProp]

theorem getProp_duration_toJson (r : Record) :
    getProp r.toJson "duration" = .ok (r.duration.map Duration.toJson) := by
  rcases r with ⟨url, tt, du, ad, re, de⟩
  cases url <;> cases tt <;> cases du <;> cases de <;>
    simp [Record.toJson, getProp, optProp, lookupProp]

theorem getProp_adaptive_support_toJson (r : Record) :
    getProp r.toJson "adaptive_support" = .ok (some (.bool r.adaptive_support)) := by
  rcases r with ⟨url, tt, du, ad, re, de⟩
  cases url <;> cases tt <;> cases du <;> cases de <;>
    simp [Record.toJson, getProp, optProp, lookupProp]

theorem getProp_remote_support_toJson (r : Record) :
    getProp r.toJson "remote_support" = .ok (some (.bool r.remote_support)) := by
  rcases r with ⟨url, tt, du, ad, re, de⟩
  cases url <;> cases tt <;> cases du <;> cases de <;>
    simp [Record.toJson, getProp, optProp, lookupProp]

theorem getProp_description_toJson (r : Record) :
    getProp r.toJson "description" = .ok (r.description.map Json.str) := by
  rcases r with ⟨url, tt, du, ad, re, de⟩
  cases url <;> cases tt <;> cases du <;> cases de <;>
    simp [Record.toJson, getProp, optProp, lookupProp]

theorem testTypeCell_toJson (r : Record) :
    testTypeCell r.toJson = .ok
      (match r.test_type with
        | some ts => ", ".toList.intercalate ts
        | none => []) := by
  unfold testTypeCell
  rw [getProp_test_type_toJson]
  cases r.test_type with
  | none => rfl
  | some ts => exact joinItems_strings _ ts

theorem rowMarkup_toJson (r : Record) :
    rowMarkup r.toJson = .ok (rowOfCells (expectedCells r)) := by
  unfold rowMarkup
  rw [getProp_url_toJson, testTypeCell_toJson, getProp_duration_toJson,
    getProp_adaptive_support_toJson, getProp_remote_support_toJson, getProp_description_toJson]
  have hu : toStr (r.url.map Json.str) = .ok (r.url.getD "undefined".toList) := by
    cases r.url <;> rfl
  have hd : stringOrEmpty (r.duration.map Duration.toJson)
      = .ok (match r.duration with
          | some (.ofNumber digits) => digits
          | some (.ofString s) => s
          | none => []) := by
    cases r.duration with
    | none => rfl
    | some d => cases d <;> rfl
  have hde : stringOrEmpty (r.description.map Json.str) = .ok (r.description.getD []) := by
    cases r.description <;> rfl
  simp only [bind, Except.bind, hu, hd, hde, truthy]
  simp only [rowOfCells, expectedCells, List.map_cons, List.map_nil, List.flatten,
    List.append_assoc, List.append_nil, pure, Except.pure]
  rfl

theorem renderRows_toJson (recs : List Record) (rows : List JsString) :
    renderRows (recs.map Record.toJson) rows
      = (rows ++ recs.map (fun r => rowOfCells (expectedCells r)), none) := by
  induction recs generalizing rows with
  | nil => simp [renderRows]
  | cons r rs ih =>
    simp only [List.map_cons, renderRows, rowMarkup_toJson, ih, List.append_assoc,
      List.singleton_append]

theorem recommendedAssessments_records (props : List (JsString × Json)) (recs : List Record)
    (hres : lookupProp "recommended_assessments".toList props
      = some (.arr (recs.map Record.toJson))) :
    recommendedAssessments (.obj props) = .ok (recs.map Record.toJson) := by
  simp only [recommendedAssessments, getProp, hres, truthy, if_true]

theorem settle_records (pg : Page) (i : Nat) (q : JsString) (status : Nat)
    (props : List (JsString × Json)) (recs : List Record)
    (hi : pg.inFlight[i]? = some q) (hs : statusOk status = true)
    (hres : lookupProp "recommended_assessments".toList props
      = some (.arr (recs.map Record.toJson))) :
    (step pg (.settle i (.http status (.ok (.obj props))))).tableRows
      = pg.tableRows ++ recs.map (fun r => rowOfCells (expectedCells r)) := by
  rw [step_settle_inFlight pg i q _ hi]
  simp only [recommendSettle, hs, if_true, recommendedAssessments_records props recs hres,
    renderRows_toJson]

/-! ### The cells a row opens -/

theorem tdOpenings_append_of_not_mem (s t : JsString) (h : '<' ∉ s) :
    tdOpenings (s ++ t) = tdOpenings t := by
  induction s with
  | nil => rfl
  | cons c cs ih =>
    simp only [List.mem_cons, not_or] at h
    have hc : c ≠ '<' := fun hc => h.1 hc.symm
    simp only [List.cons_append, tdOpenings, hc, false_and, if_false, Nat.add_zero]
    exact ih h.2

theorem tdOpenings_cellOpen (t : JsString) :
    tdOpenings ("\n        <td>".toList ++ t) = tdOpenings t + 1 := rfl

theorem tdOpenings_cellClose (t : JsString) :
    tdOpenings ("</td>".toList ++ t) = tdOpenings t := rfl

theorem tdOpenings_linkOpen (t : JsString) :
    tdOpenings ("<a href=\"".toList ++ t) = tdOpenings t := rfl

theorem tdOpenings_linkClose (t : JsString) :
    tdOpenings ("</a>".toList ++ t) = tdOpenings t := rfl

theorem not_mem_intercalate (sep : JsString) (ts : List JsString) (c : Char)
    (hsep : c ∉ sep) (hts : ∀ t ∈ ts, c ∉ t) : c ∉ sep.intercalate ts := by
  cases ts with
  | nil => simp [List.intercalate]
  | cons x rest =>
    rw [intercalate_cons_eq]
    intro hc
    rcases List.mem_append.mp hc with hc | hc
    · exact hts x (List.mem_cons_self _ _) hc
    · obtain ⟨l, hl, hcl⟩ := List.mem_flatten.mp hc
      obtain ⟨y, hy, rfl⟩ := List.mem_map.mp hl
      rcases List.mem_append.mp hcl with hcl | hcl
      · exact hsep hcl
      · exact hts y (List.mem_cons_of_mem _ hy) hcl

theorem tdOpenings_row (r : Record) (h : r.plainText) :
    tdOpenings (rowOfCells (expectedCells r)) = 6 := by
  obtain ⟨hurl, htt, hnum, hstr, hdesc⟩ := h
  have h1 : '<' ∉ r.url.getD "undefined".toList := by
    cases hu : r.url with
    | none => decide
    | some u => exact hurl u hu
  have h2 : '<' ∉ (match r.test_type with
      | some ts => ", ".toList.intercalate ts
      | none => []) := by
    cases ht : r.test_type with
    | none => simp
    | some ts => exact not_mem_intercalate _ ts '<' (by decide) (htt ts ht)
  have h3 : '<' ∉ (match r.duration with
      | some (.ofNumber digits) => digits
      | some (.ofString s) => s
      | none => []) := by
    cases hd : r.duration with
    | none => simp
    | some d =>
      cases d with
      | ofNumber digits => exact hnum digits hd
      | ofString s => exact hstr s hd
  have h4 : '<' ∉ (if r.adaptive_support then "Yes".toList else "No".toList) := by
    cases r.adaptive_support <;> decide
  have h5 : '<' ∉ (if r.remote_support then "Yes".toList else "No".toList) := by
    cases r.remote_support <;> decide
  have h6 : '<' ∉ r.description.getD [] := by
    cases hd : r.description with
    | none => simp
    | some s => exact hdesc s hd
  have hattr : '<' ∉ "\" target=\"_blank\" rel=\"noopener\">".toList := by decide
  simp only [rowOfCells, expectedCells, List.map_cons, List.map_nil, List.flatten,
    List.append_assoc, List.append_nil]
  rw [tdOpenings_cellOpen, tdOpenings_linkOpen, tdOpenings_append_of_not_mem _ _ h1,
    tdOpenings_append_of_not_mem _ _ hattr, tdOpenings_append_of_not_mem _ _ h1,
    tdOpenings_linkClose, tdOpenings_cellClose,
    tdOpenings_cellOpen, tdOpenings_append_of_not_mem _ _ h2, tdOpenings_cellClose,
    tdOpenings_cellOpen, tdOpenings_append_of_not_mem _ _ h3, tdOpenings_cellClose,
    tdOpenings_cellOpen, tdOpenings_append_of_not_mem _ _ h4, tdOpenings_cellClose,
    tdOpenings_cellOpen, tdOpenings_append_of_not_mem _ _ h5, tdOpenings_cellClose,
    tdOpenings_cellOpen, tdOpenings_append_of_not_mem _ _ h6, tdOpenings_cellClose]
  rfl

/-- C10 (amended). For every sequence of Recommendation Records returned by a
successful Recommend call, handling the response appends to the table exactly
one row per record, in the order of the sequence, behind the rows the table
holds at that moment; when the response is the next event after the click of
its call the table ends up with exactly these rows.  The markup of the row of
a record is six `td` elements holding, as they are: a link whose text and
target are the url; the test types joined with a comma and a space (nothing
if `test_type` is missing or not a sequence); the duration, or nothing; `Yes`
or `No` for adaptive support; `Yes` or `No` for remote support; the
description, or nothing.  For a record none of whose texts holds the
character `<` that markup opens exactly six cells. -/
theorem rendered_rows (status : Nat) (props : List (JsString × Json)) (recs : List Record)
    (hs : statusOk status = true)
    (hres : lookupProp "recommended_assessments".toList props
      = some (.arr (recs.map Record.toJson))) :
    (∀ (pg : Page) (i : Nat) (q : JsString), pg.inFlight[i]? = some q →
      (step pg (.settle i (.http status (.ok (.obj props))))).tableRows
        = pg.tableRows ++ recs.map (fun r => rowOfCells (expectedCells r)))
    ∧ (∀ (pg : Page) (inp : Inputs), trim inp.apiBase ≠ [] → trim inp.query ≠ [] →
      (step (recommendClick pg inp).1
          (.settle pg.inFlight.length (.http status (.ok (.obj props))))).tableRows
        = recs.map (fun r => rowOfCells (expectedCells r)))
    ∧ (∀ r ∈ recs, r.plainText → tdOpenings (rowOfCells (expectedCells r)) = 6)
    ∧ (∀ r : Json, r ≠ .null →
        (∀ items, getProp r "test_type" ≠ .ok (some (.arr items))) →
        testTypeCell r = .ok []) := by
  refine ⟨fun pg i q hi => settle_records pg i q status props recs hi hs hres, ?_,
    fun r _ hr => tdOpenings_row r hr, ?_⟩
  · intro pg inp hb hq
    have h := settle_records (recommendClick pg inp).1 pg.inFlight.length (trim inp.query)
      status props recs (recommendClick_inFlight_last pg inp hb hq) hs hres
    rw [h, recommendClick_tableRows, List.nil_append]
  · intro r hr hseq
    unfold testTypeCell
    cases hg : getProp r "test_type" with
    | error e =>
      cases r with
      | null => exact absurd rfl hr
      | _ => simp [getProp] at hg
    | ok v =>
      cases v with
      | none => rfl
      | some j =>
        cases j with
        | arr items => exact absurd hg (hseq items)
        | _ => rfl

/-- C10, witness: the response of scenario 2, as the next event after the
click, gives one row with the link to `http://x/a`, the test types
`Verbal, Numerical`, the duration `30`, `Yes`, `No` and an empty description. -/
theorem rendered_rows_witness :
    (step (recommendClick (Page.loaded [] []) (Inputs.mk "http://h".toList "q".toList [])).1
        (.settle 0 (.http 200 (.ok (.obj [("recommended_assessments".toList,
          .arr ([Record.mk (some "http://x/a".toList)
            (some ["Verbal".toList, "Numerical".toList])
            (some (.ofNumber "30".toList)) true false none].map Record.toJson))]))))).tableRows
      = [rowOfCells
          ["<a href=\"http://x/a\" target=\"_blank\" rel=\"noopener\">http://x/a</a>".toList,
            "Verbal, Numerical".toList, "30".toList, "Yes".toList, "No".toList, []]] :=
  (rendered_rows 200
    [("recommended_assessments".toList,
      .arr ([Record.mk (some "http://x/a".toList)
        (some ["Verbal".toList, "Numerical".toList])
        (some (.ofNumber "30".toList)) true false none].map Record.toJson))]
    [Record.mk (some "http://x/a".toList) (some ["Verbal".toList, "Numerical".toList])
      (some (.ofNumber "30".toList)) true false none]
    (by decide) (by rfl)).2.1
    (Page.loaded [] []) (Inputs.mk "http://h".toList "q".toList []) (by decide) (by decide)

set_option maxRecDepth 8000 in
/-- C10 (as stated) fails twice.  With two overlapping calls, where the second
call gets one record before the first call gets two, the table holds three
rows after the first call, not one per record of its response.  And the row
of a record whose description is `a</td><td>extra` opens seven cells, not six. -/
theorem rendered_rows_counterexample :
    (run (Page.loaded [] [])
        [.recommend (Inputs.mk "http://h".toList "first".toList []),
         .recommend (Inputs.mk "http://h".toList "second".toList []),
         .settle 1 (.http 200 (.ok (.obj [("recommended_assessments".toList,
            .arr ([Record.mk (some "http://x/c".toList) none none false false none].map
              Record.toJson))]))),
         .settle 0 (.http 200 (.ok (.obj [("recommended_assessments".toList,
            .arr ([Record.mk (some "http://x/a".toList) none none false false none,
              Record.mk (some "http://x/b".toList) none none false false none].map
              Record.toJson))])))]).tableRows.length = 3
    ∧ (rowMarkup (Record.toJson (Record.mk (some "http://x".toList) none none false false
        (some "a</td><td>extra".toList)))).map tdOpenings = .ok 7 := by
  constructor <;> rfl

/-! ### Reading the file back -/

/-- C4 at the failing input: for the query `q` and one record whose url is
`a`, carriage return, `b`, the CSV body reads back as three rows, not two:
the carriage return inside the unquoted url ends the record. -/
theorem roundtrip_bare_cr :
    (csvBody "q".toList [Record.toJson ⟨some "a\rb".toList, none, none, false, false, none⟩]).map
        parseCsv
      = .ok [["Query".toList, "Assessment_url".toList], ["q".toList, "a".toList], ["b".toList]] := by
  rfl

theorem parse_unquoted_cons (rows : List (List JsString)) (fields : List JsString)
    (field : JsString) (c : Char) (cs : JsString) :
    parseCsvFrom .unquoted rows fields field (c :: cs)
      = if c = ',' then parseCsvFrom .fieldStart rows (fields ++ [field]) [] cs
        else if c = cr then
          parseCsvFrom (.recordStart true) (rows ++ [fields ++ [field]]) [] [] cs
        else if c = lf then
          parseCsvFrom (.recordStart false) (rows ++ [fields ++ [field]]) [] [] cs
        else parseCsvFrom .unquoted rows fields (field ++ [c]) cs := rfl

theorem parse_quoted_cons (rows : List (List JsString)) (fields : List JsString)
    (field : JsString) (c : Char) (cs : JsString) :
    parseCsvFrom .quoted rows fields field (c :: cs)
      = if c = dquote then parseCsvFrom .afterQuote rows fields field cs
        else parseCsvFrom .quoted rows fields (field ++ [c]) cs := rfl

theorem parse_afterQuote_cons (rows : List (List JsString)) (fields : List JsString)
    (field : JsString) (c : Char) (cs : JsString) :
    parseCsvFrom .afterQuote rows fields field (c :: cs)
      = if c = dquote then parseCsvFrom .quoted rows fields (field ++ [dquote]) cs
        else if c = ',' then parseCsvFrom .fieldStart rows (fields ++ [field]) [] cs
        else if c = cr then
          parseCsvFrom (.recordStart true) (rows ++ [fields ++ [field]]) [] [] cs
        else if c = lf then
          parseCsvFrom (.recordStart false) (rows ++ [fields ++ [field]]) [] [] cs
        else parseCsvFrom .unquoted rows fields (field ++ [c]) cs := rfl

theorem parse_fieldStart_cons (rows : List (List JsString)) (fields : List JsString)
    (field : JsString) (c : Char) (cs : JsString) :
    parseCsvFrom .fieldStart rows fields field (c :: cs)
      = if c = dquote then parseCsvFrom .quoted rows fields field cs
        else if c = ',' then parseCsvFrom .fieldStart rows (fields ++ [field]) [] cs
        else if c = cr then
          parseCsvFrom (.recordStart true) (rows ++ [fields ++ [field]]) [] [] cs
        else if c = lf then
          parseCsvFrom (.recordStart false) (rows ++ [fields ++ [field]]) [] [] cs
        else parseCsvFrom .unquoted rows fields (field ++ [c]) cs := rfl

theorem parse_recordStart_cons (afterCr : Bool) (rows : List (List JsString))
    (fields : List JsString) (field : JsString) (c : Char) (cs : JsString) :
    parseCsvFrom (.recordStart afterCr) rows fields field (c :: cs)
      = if (c = lf && afterCr) = true then
          parseCsvFrom (.recordStart false) rows fields field cs
        else if c = dquote then parseCsvFrom .quoted rows fields field cs
        else if c = ',' then parseCsvFrom .fieldStart rows (fields ++ [field]) [] cs
        else if c = cr then
          parseCsvFrom (.recordStart true) (rows ++ [fields ++ [field]]) [] [] cs
        else if c = lf then
          parseCsvFrom (.recordStart false) (rows ++ [fields ++ [field]]) [] [] cs
        else parseCsvFrom .unquoted rows fields (field ++ [c]) cs := rfl


theorem parse_unquoted_plain (rows : List (List JsString)) (fields : List JsString)
    (s : JsString) (h1 : dquote ∉ s) (h2 : ',' ∉ s) (h3 : lf ∉ s) (h4 : cr ∉ s) :
    ∀ (field tail : JsString),
      parseCsvFrom .unquoted rows fields field (s ++ tail)
        = parseCsvFrom .unquoted rows fields (field ++ s) tail := by
  induction s with
  | nil => intro field tail; simp
  | cons c cs ih =>
    intro field tail
    simp only [List.mem_cons, not_or] at h1 h2 h3 h4
    have hc2 : c ≠ ',' := fun h => h2.1 h.symm
    have hc3 : c ≠ lf := fun h => h3.1 h.symm
    have hc4 : c ≠ cr := fun h => h4.1 h.symm
    rw [List.cons_append, parse_unquoted_cons, if_neg hc2, if_neg hc4, if_neg hc3,
      ih h1.2 h2.2 h3.2 h4.2]
    simp

theorem parse_quoted_body (rows : List (List JsString)) (fields : List JsString)
    (s : JsString) :
    ∀ (field tail : JsString),
      parseCsvFrom .quoted rows fields field (replaceQuotes s ++ dquote :: tail)
        = parseCsvFrom .afterQuote rows fields (field ++ s) tail := by
  induction s with
  | nil =>
    intro field tail
    simp only [replaceQuotes, List.nil_append, List.append_nil]
    rw [parse_quoted_cons, if_pos rfl]
  | cons c cs ih =>
    intro field tail
    by_cases hc : c = dquote
    · subst hc
      simp only [replaceQuotes, if_true, List.cons_append]
      rw [parse_quoted_cons, if_pos rfl, parse_afterQuote_cons, if_pos rfl, ih]
      simp
    · simp only [replaceQuotes, hc, if_false, List.cons_append]
      rw [parse_quoted_cons, if_neg hc, ih]
      simp

theorem escapeCsvString_of_special {s : JsString} (h : dquote ∈ s ∨ ',' ∈ s ∨ lf ∈ s) :
    escapeCsvString s = dquote :: (replaceQuotes s ++ [dquote]) := by
  unfold escapeCsvString
  rw [if_pos]
  rcases h with h | h | h <;> simp [h]

/-- An escaped field is read back as the field: once its text is consumed the
reader stands as if inside an unquoted field holding the value, provided the
text is followed by the end of the input, a comma or a carriage return. -/
theorem parse_escaped_field (rows : List (List JsString)) (fields : List JsString)
    (s tail : JsString) (hs : ReadsBack s)
    (ht : tail = [] ∨ ∃ rest, tail = ',' :: rest ∨ tail = cr :: rest) :
    parseCsvFrom .fieldStart rows fields [] (escapeCsvString s ++ tail)
      = parseCsvFrom .unquoted rows fields s tail := by
  by_cases hq : dquote ∈ s ∨ ',' ∈ s ∨ lf ∈ s
  · rw [escapeCsvString_of_special hq]
    simp only [List.cons_append, List.append_assoc, List.singleton_append]
    rw [parse_fieldStart_cons, if_pos rfl, parse_quoted_body]
    simp only [List.nil_append]
    rcases ht with rfl | ⟨rest, rfl | rfl⟩
    · rfl
    · rw [parse_afterQuote_cons, parse_unquoted_cons, if_neg (by decide)]
    · rw [parse_afterQuote_cons, parse_unquoted_cons, if_neg (by decide)]
  · simp only [not_or] at hq
    obtain ⟨h1, h2, h3⟩ := hq
    have h4 : cr ∉ s := fun h => (hs h).elim h1 (fun h' => h'.elim h2 h3)
    rw [escapeCsvString_of_plain h1 h2 h3]
    cases s with
    | nil =>
      rcases ht with rfl | ⟨rest, rfl | rfl⟩
      · rfl
      · rfl
      · rfl
    | cons c cs =>
      simp only [List.mem_cons, not_or] at h1 h2 h3 h4
      have hc1 : c ≠ dquote := fun h => h1.1 h.symm
      have hc2 : c ≠ ',' := fun h => h2.1 h.symm
      have hc3 : c ≠ lf := fun h => h3.1 h.symm
      have hc4 : c ≠ cr := fun h => h4.1 h.symm
      rw [List.cons_append, parse_fieldStart_cons, if_neg hc1, if_neg hc2, if_neg hc4,
        if_neg hc3, parse_unquoted_plain rows fields cs h1.2 h2.2 h3.2 h4.2]
      rfl

theorem parse_recordStart_eq_fieldStart (rows : List (List JsString)) (fields : List JsString)
    (field : JsString) (c : Char) (cs : JsString) :
    parseCsvFrom (.recordStart false) rows fields field (c :: cs)
      = parseCsvFrom .fieldStart rows fields field (c :: cs) := by
  rw [parse_recordStart_cons, parse_fieldStart_cons]
  simp

theorem escapeCsvString_append_cons_ne_nil (s : JsString) (c : Char) (tail : JsString) :
    ∃ d ds, escapeCsvString s ++ c :: tail = d :: ds := by
  cases h : escapeCsvString s ++ c :: tail with
  | nil => simp at h
  | cons d ds => exact ⟨d, ds, rfl⟩

/-- A line of the export is read back as its two fields, at the end of the
text. -/
theorem parse_last_line (rows : List (List JsString)) (a b : JsString)
    (ha : ReadsBack a) (hb : ReadsBack b) :
    parseCsvFrom (.recordStart false) rows [] []
        (escapeCsvString a ++ ',' :: escapeCsvString b)
      = rows ++ [[a, b]] := by
  obtain ⟨d, ds, hd⟩ := escapeCsvString_append_cons_ne_nil a ',' (escapeCsvString b)
  rw [hd, parse_recordStart_eq_fieldStart, ← hd,
    parse_escaped_field rows [] a _ ha (Or.inr ⟨_, Or.inl rfl⟩), parse_unquoted_cons,
    if_pos rfl]
  have h := parse_escaped_field rows ([] ++ [a]) b [] hb (Or.inl rfl)
  rw [List.append_nil] at h
  rw [h]
  rfl

/-- A line of the export followed by CRLF is read back as its two fields, and
the reader stands at the start of the next record. -/
theorem parse_line_crlf (rows : List (List JsString)) (a b rest : JsString)
    (ha : ReadsBack a) (hb : ReadsBack b) :
    parseCsvFrom (.recordStart false) rows [] []
        (escapeCsvString a ++ ',' :: (escapeCsvString b ++ cr :: lf :: rest))
      = parseCsvFrom (.recordStart false) (rows ++ [[a, b]]) [] [] rest := by
  obtain ⟨d, ds, hd⟩ :=
    escapeCsvString_append_cons_ne_nil a ',' (escapeCsvString b ++ cr :: lf :: rest)
  rw [hd, parse_recordStart_eq_fieldStart, ← hd,
    parse_escaped_field rows [] a _ ha (Or.inr ⟨_, Or.inl rfl⟩), parse_unquoted_cons,
    if_pos rfl,
    parse_escaped_field rows ([] ++ [a]) b _ hb (Or.inr ⟨_, Or.inr rfl⟩), parse_unquoted_cons,
    if_neg (by decide), if_pos rfl, parse_recordStart_cons]
  simp

theorem parse_lines (rest : List (JsString × JsString))
    (hrest : ∀ p ∈ rest, ReadsBack p.1 ∧ ReadsBack p.2) :
    ∀ (rows : List (List JsString)) (a b : JsString), ReadsBack a → ReadsBack b →
      parseCsvFrom (.recordStart false) rows [] []
          ([cr, lf].intercalate
            ((escapeCsvString a ++ ',' :: escapeCsvString b)
              :: rest.map (fun p => escapeCsvString p.1 ++ ',' :: escapeCsvString p.2)))
        = rows ++ [a, b] :: rest.map (fun p => [p.1, p.2]) := by
  induction rest with
  | nil =>
    intro rows a b ha hb
    simp only [List.map_nil, intercalate_cons_eq, List.flatten, List.append_nil]
    exact parse_last_line rows a b ha hb
  | cons p ps ih =>
    intro rows a b ha hb
    have hp := hrest p (List.mem_cons_self _ _)
    have hps : ∀ p' ∈ ps, ReadsBack p'.1 ∧ ReadsBack p'.2 :=
      fun p' h' => hrest p' (List.mem_cons_of_mem _ h')
    have h := ih hps (rows ++ [[a, b]]) p.1 p.2 hp.1 hp.2
    rw [intercalate_cons_eq] at h ⊢
    simp only [List.map_cons, List.flatten, List.append_assoc, List.cons_append,
      List.nil_append] at h ⊢
    rw [parse_line_crlf rows a b _ ha hb, h]

/-- The export reads back whenever every url that holds a carriage return
also holds a double quote, a comma or a line feed: the reference reader then
returns the header and one row `[normalize(q), url]` per record. -/
theorem roundtrip_of_readsBack (q : JsString) (recs : List Record)
    (h : ∀ r ∈ recs, ReadsBack (r.url.getD [])) :
    (csvBody q (recs.map Record.toJson)).map parseCsv
      = .ok (["Query".toList, "Assessment_url".toList]
          :: recs.map (fun r => [normalize q, r.url.getD []])) := by
  have hq : ReadsBack (normalize q) := fun hc => absurd hc (not_cr_mem_normalize q)
  have hrest : ∀ p ∈ recs.map (fun r => (normalize q, r.url.getD [])),
      ReadsBack p.1 ∧ ReadsBack p.2 := by
    intro p hp
    obtain ⟨r, hr, rfl⟩ := List.mem_map.mp hp
    exact ⟨hq, h r hr⟩
  have hparse := parse_lines _ hrest [] "Query".toList "Assessment_url".toList
    (fun hc => absurd hc (by decide)) (fun hc => absurd hc (by decide))
  simp only [List.map_map, Function.comp_def, List.nil_append] at hparse
  simp only [csvBody, downloadCsv_toJson, List.tail_cons, Except.map, parseCsv,
    List.map_map, Function.comp_def, hparse]

/-- The export of two records, one with a quoted url, reads back. -/
theorem roundtrip_of_readsBack_witness :
    (csvBody "a,b".toList
        ([Record.mk (some "x\r\ny".toList) none none false false none,
          Record.mk none none none false false none].map Record.toJson)).map parseCsv
      = .ok (["Query".toList, "Assessment_url".toList]
          :: [Record.mk (some "x\r\ny".toList) none none false false none,
              Record.mk none none none false false none].map
            (fun r => [normalize "a,b".toList, r.url.getD []])) :=
  roundtrip_of_readsBack "a,b".toList
    [Record.mk (some "x\r\ny".toList) none none false false none,
      Record.mk none none none false false none]
    (by
      intro r hr
      simp only [List.mem_cons, List.mem_singleton, List.not_mem_nil, or_false] at hr
      rcases hr with rfl | rfl
      · intro _; exact Or.inr (Or.inr (by decide))
      · intro hc; exact absurd hc (by decide))

/-! ### Scenarios -/

/-- Scenario 4: a response with status 500 sets the error text to
`Error: HTTP 500` and leaves table and export target as they are. -/
theorem scenario4_http_500 :
    recommendSettle (Page.loaded [] []) "q".toList (.http 500 (.ok .null))
      = ⟨"Error: HTTP 500".toList, [], none, []⟩ := by
  rfl

/-- Two overlapping Recommend calls: the second call succeeds first with one
record, then the first call fails with status 500; the export target is the
pair of the second call, the only successful one. -/
theorem overlapping_calls_example :
    (run (Page.loaded [] [])
        [.recommend (Inputs.mk "http://h".toList "first".toList []),
         .recommend (Inputs.mk "http://h".toList "second".toList []),
         .settle 1 (.http 200 (.ok (.obj [("recommended_assessments".toList,
            .arr [.obj [("url".toList, .str "http://x".toList)]])]))),
         .settle 0 (.http 500 (.ok .null)),
         .download]).exportTarget
      = some ("second".toList, [.obj [("url".toList, .str "http://x".toList)]])
    ∧ completedCalls (Page.loaded [] [])
        [.recommend (Inputs.mk "http://h".toList "first".toList []),
         .recommend (Inputs.mk "http://h".toList "second".toList []),
         .settle 1 (.http 200 (.ok (.obj [("recommended_assessments".toList,
            .arr [.obj [("url".toList, .str "http://x".toList)]])]))),
         .settle 0 (.http 500 (.ok .null)),
         .download]
      = [("second".toList, [.obj [("url".toList, .str "http://x".toList)]])] := by
  constructor <;> rfl

/-- A record that is `null` stops the rendering: the rows before it stay in the
table, the error text is set and the export target is left as it was. -/
theorem null_record_example :
    (recommendSettle (Page.loaded [] []) "q".toList
        (.http 200 (.ok (.obj [("recommended_assessments".toList,
          .arr [.obj [("url".toList, .str "u".toList)], .null])])))).tableRows.length = 1
    ∧ (recommendSettle (Page.loaded [] []) "q".toList
        (.http 200 (.ok (.obj [("recommended_assessments".toList,
          .arr [.obj [("url".toList, .str "u".toList)], .null])])))).exportTarget = none := by
  constructor <;> rfl

end ShlWebApp
